import Mathlib

/-!
Verification of the NLP manager orchestrator (`src/lib/nlp/nlp-manager.js`).

The JavaScript class is embedded shallowly: pure methods become Lean
functions, the mutable manager object becomes an explicit `NlpManager`
record threaded through the operations, JavaScript `undefined` becomes
`Option.none`, classification scores (compared but never computed on)
become `Rat`, and the statements that can throw a `TypeError` are embedded
in `Except String`.  External collaborators (classifier, NER, sentiment,
language guesser, slot manager, NLG, template engine) live outside the
repository sources; they are carried as function-valued fields of the
manager record, so theorems quantify over their behaviour.
-/

/-- One entry of a `ClassificationResult`: a `(label, value)` pair as
returned by `classifier.getClassifications`. -/
structure Classification where
  label : String
  value : Rat
deriving DecidableEq, Repr

/-- An entity as produced by `nerManager.findEntities`: name, optional
canonical option and the matched text (the fields `process` reads). -/
structure Entity where
  entity : String
  option : Option String
  utteranceText : String
deriving DecidableEq, Repr

/-- The mutable `context` object of `process`: a string-keyed map. -/
abbrev Context := List (String × String)

/-- JavaScript object property assignment `ctx[k] = v`: overwrite an
existing key in place, otherwise append. -/
def assocUpdate {β : Type} : List (String × β) → String → β → List (String × β)
  | [], k, v => [(k, v)]
  | (k', v') :: rest, k, v =>
    if k' = k then (k, v) :: rest else (k', v') :: assocUpdate rest k v

/-- `substr(0, 2).toLowerCase()` at the character level (locale codes are
ASCII). -/
def truncateLocale (s : String) : String :=
  String.mk ((s.data.take 2).map Char.toLower)

/-- `NlpUtil.getTruncatedLocale`: `locale ? locale.substr(0, 2).toLowerCase()
: undefined`.  Modelled from the spec: a locale is normalized by truncation
to its first two characters, lower-cased; a falsy locale yields none
(`nlp-util.js` is outside `src/`). -/
def getTruncatedLocale (locale : Option String) : Option String :=
  match locale with
  | none => none
  | some s => if s = "" then none else some (truncateLocale s)

/-- `this.languages.includes(truncated)` where `truncated` may be
`undefined`: an undefined key is never a registered locale. -/
def includesOpt (languages : List String) (truncated : Option String) : Bool :=
  match truncated with
  | none => false
  | some t => languages.contains t

/- ---------------------------------------------------------------------
Sparse observation codec (`export` lines 578-585, `import` lines 531-543).
--------------------------------------------------------------------- -/

/-- `export` lines 581-583: `features.map((feat, index) => (feat === 1 ?
index : undefined)).filter(n => n)`.  The filter keeps truthy values, so it
drops both `undefined` and the numeric index `0`. -/
def sparseEncodeRow (features : List Nat) : List Nat :=
  (List.mapIdx (fun index feat => if feat = 1 then some index else none) features).filterMap
    (fun n => n.bind (fun k => if k = 0 then none else some k))

/-- `export` lines 577-585 applied to a whole observations object:
every dense row of every label is replaced by its sparse encoding. -/
def exportObservations (observations : List (String × List (List Nat))) :
    List (String × List (List Nat)) :=
  observations.map (fun p => (p.1, p.2.map sparseEncodeRow))

/-- `import` lines 535-540: allocate `Array(features.length).fill(0)` and
set every listed position to `1`.  An index outside the row is left as a
no-op here; the JavaScript code would silently grow the array (the spec
calls this precondition unchecked). -/
def importRow (featuresLength : Nat) (row : List Nat) : List Nat :=
  row.foldl (fun features featPosition => features.set featPosition 1)
    (List.replicate featuresLength 0)

/-- `import` lines 531-543 applied to a whole observations object. -/
def importObservations (featuresLength : Nat)
    (observations : List (String × List (List Nat))) :
    List (String × List (List Nat)) :=
  observations.map (fun p => (p.1, p.2.map (importRow featuresLength)))

lemma mem_sparseEncodeRow {row : List Nat} {i : Nat} :
    i ∈ sparseEncodeRow row ↔ i ≠ 0 ∧ ∃ h : i < row.length, row[i] = 1 := by
  unfold sparseEncodeRow
  rw [List.mem_filterMap]
  constructor
  · rintro ⟨o, ho, hfo⟩
    match o with
    | none => simp at hfo
    | some k =>
      by_cases hk : k = 0
      · simp [hk] at hfo
      · simp only [Option.bind, if_neg hk] at hfo
        injection hfo with hki
        subst hki
        rcases List.mem_iff_getElem.1 ho with ⟨j, hj, hjo⟩
        rw [List.getElem_mapIdx] at hjo
        split at hjo
        next hrow =>
          injection hjo with hji
          subst hji
          exact ⟨hk, ⟨by simpa using hj, hrow⟩⟩
        next hrow => exact absurd hjo (by simp)
  · rintro ⟨hi0, hlen, hval⟩
    refine ⟨some i, ?_, ?_⟩
    · rw [List.mem_iff_getElem]
      refine ⟨i, by simpa using hlen, ?_⟩
      rw [List.getElem_mapIdx, if_pos hval]
    · simp [Option.bind, hi0]

lemma length_foldl_set (s : List Nat) (base : List Nat) :
    (s.foldl (fun fs p => fs.set p 1) base).length = base.length := by
  induction s generalizing base with
  | nil => rfl
  | cons p rest ih =>
    rw [List.foldl_cons, ih, List.length_set]

lemma getElem_foldl_set (s : List Nat) (base : List Nat) (i : Nat)
    (h : i < base.length)
    (h' : i < (s.foldl (fun fs p => fs.set p 1) base).length) :
    (s.foldl (fun fs p => fs.set p 1) base)[i] =
      if i ∈ s then 1 else base[i] := by
  induction s generalizing base with
  | nil => simp
  | cons p rest ih =>
    simp only [List.foldl_cons]
    have hlen : i < (base.set p 1).length := by rwa [List.length_set]
    rw [ih (base.set p 1) hlen (by simpa [length_foldl_set, List.length_set] using h)]
    rw [List.getElem_set]
    by_cases hip : i ∈ rest
    · simp [hip, List.mem_cons]
    · by_cases hpi : p = i
      · subst hpi
        simp [hip]
      · simp [hip, hpi, List.mem_cons, Ne.symm hpi]

lemma length_importRow (featuresLength : Nat) (row : List Nat) :
    (importRow featuresLength row).length = featuresLength := by
  unfold importRow
  rw [length_foldl_set, List.length_replicate]

/-- Decoding the sparse encoding of a 0/1 row with no feature at column 0
reconstructs the row exactly. -/
lemma importRow_sparseEncodeRow (row : List Nat)
    (h01 : ∀ x ∈ row, x = 0 ∨ x = 1) (h0 : row.headD 0 ≠ 1) :
    importRow row.length (sparseEncodeRow row) = row := by
  apply List.ext_getElem
  · rw [length_importRow]
  · intro i h1 h2
    unfold importRow
    rw [getElem_foldl_set _ _ _ (by simpa using (by rwa [length_importRow] at h1)) h1]
    rw [List.getElem_replicate]
    by_cases hmem : i ∈ sparseEncodeRow row
    · rcases (mem_sparseEncodeRow.1 hmem) with ⟨_, _, hval⟩
      rw [if_pos hmem, hval]
    · rw [if_neg hmem]
      by_cases hi0 : i = 0
      · subst hi0
        match row, h2 with
        | a :: rest, _ =>
          have : a ≠ 1 := by simpa using h0
          rcases h01 a (by simp) with ha | ha
          · simpa using ha.symm
          · exact absurd ha this
      · rcases h01 (row[i]) (List.getElem_mem h2) with ha | ha
        · exact ha.symm
        · exact absurd (mem_sparseEncodeRow.2 ⟨hi0, h2, ha⟩) hmem

lemma decode_encode_matrix (featuresLength : Nat) (matrix : List (List Nat))
    (h : ∀ row ∈ matrix,
      row.length = featuresLength ∧ (∀ x ∈ row, x = 0 ∨ x = 1) ∧ row.headD 0 ≠ 1) :
    (matrix.map sparseEncodeRow).map (importRow featuresLength) = matrix := by
  induction matrix with
  | nil => rfl
  | cons row rest ih =>
    simp only [List.map_cons]
    rcases h row (by simp) with ⟨hlen, h01, h0⟩
    rw [show importRow featuresLength (sparseEncodeRow row) = row from
        hlen ▸ importRow_sparseEncodeRow row h01 h0,
      ih (fun r hr => h r (by simp [hr]))]

lemma importObservations_exportObservations
    (observations : List (String × List (List Nat))) (featuresLength : Nat)
    (h : ∀ p ∈ observations, ∀ row ∈ p.2,
      row.length = featuresLength ∧ (∀ x ∈ row, x = 0 ∨ x = 1) ∧ row.headD 0 ≠ 1) :
    importObservations featuresLength (exportObservations observations) = observations := by
  unfold importObservations exportObservations
  induction observations with
  | nil => rfl
  | cons p rest ih =>
    simp only [List.map_cons]
    rw [decode_encode_matrix featuresLength p.2 (h p (by simp)),
      ih (fun q hq => h q (by simp [hq]))]

/-- C1.  For every model whose dense 0/1 observation rows have length
`features.length` and carry no feature at column index 0, the codec
round-trips: `encode (decode (encode obs)) = encode obs`, and in fact
decode after encode reconstructs every dense row exactly. -/
theorem c1_codec_roundtrip
    (observations : List (String × List (List Nat))) (featuresLength : Nat)
    (h : ∀ p ∈ observations, ∀ row ∈ p.2,
      row.length = featuresLength ∧ (∀ x ∈ row, x = 0 ∨ x = 1) ∧ row.headD 0 ≠ 1) :
    exportObservations (importObservations featuresLength (exportObservations observations)) =
        exportObservations observations ∧
      importObservations featuresLength (exportObservations observations) = observations := by
  have hdec := importObservations_exportObservations observations featuresLength h
  exact ⟨by rw [hdec], hdec⟩

/-- Concrete observations used to witness C1. -/
def c1obs : List (String × List (List Nat)) := [("greet", [[0, 1, 0], [0, 0, 1]])]

/-- Witness for C1 at a concrete two-row model with three features. -/
theorem c1_codec_roundtrip_witness :
    (∀ p ∈ c1obs, ∀ row ∈ p.2,
        row.length = 3 ∧ (∀ x ∈ row, x = 0 ∨ x = 1) ∧ row.headD 0 ≠ 1) ∧
      exportObservations (importObservations 3 (exportObservations c1obs)) =
        exportObservations c1obs ∧
      importObservations 3 (exportObservations c1obs) = c1obs :=
  ⟨by decide, c1_codec_roundtrip c1obs 3 (by decide)⟩

/- ---------------------------------------------------------------------
Data model of the manager and its injected collaborators.
--------------------------------------------------------------------- -/

/-- The manager settings fields the orchestrator reads.  `ner` is the
opaque payload handed to the entity extractor's constructor. -/
structure Settings where
  ner : Option String
  fullSearchWhenGuessed : Bool
  useNlg : Bool
deriving DecidableEq, Repr

/-- `classifier.settings.classifier` — the logistic classifier state the
codec walks: observations (dense 0/1 rows per label), labels,
classifications, observation count and weights, the last four carried
through the codec unmodified. -/
structure LogisticState where
  observations : List (String × List (List Nat))
  labels : List String
  classifications : List String
  observationCount : Nat
  theta : List Rat
deriving DecidableEq, Repr

/-- A per-locale classifier as the manager sees it.  `language`, `docs`,
`features` and `classifier` mirror the fields `import`/`export` touch;
`getClassifications` is the ClassifierPort inference function (external to
`src/`, modelled from the spec: ranked classify, possibly empty). -/
structure NlpClassifier where
  language : String
  docs : List String
  features : List String
  classifier : LogisticState
  getClassifications : Option String → List Classification

/-- Modelled from the spec: a fresh ClassifierPort bound to a locale, as
created by `new NlpClassifier({ language: truncated })`; an untrained
classifier classifies to the empty result. -/
def NlpClassifier.init (language : String) : NlpClassifier :=
  { language := language
    docs := []
    features := []
    classifier := { observations := [], labels := [], classifications := [],
                    observationCount := 0, theta := [] }
    getClassifications := fun _ => [] }

/-- Modelled from the spec: the EntityExtractorPort (`NerManager`, outside
`src/`) with its owned entity state and the two operations `process`
consumes. -/
structure NerManager where
  nerSettings : Option String
  entities : List String
  generateEntityUtteranceFn : Option String → Option String → Option String
  findEntitiesFn : Option String → Option String → List String → List Entity

/-- Modelled from the spec: `new NerManager(settings.ner)` — empty entity
state; with nothing registered it rewrites nothing and finds nothing. -/
def NerManager.fresh (nerSettings : Option String) : NerManager :=
  { nerSettings := nerSettings
    entities := []
    generateEntityUtteranceFn := fun utterance _ => utterance
    findEntitiesFn := fun _ _ _ => [] }

/-- One guess entry returned by the LanguageGuesserPort. -/
structure GuessRec where
  alpha2 : String
deriving DecidableEq, Repr

/-- Modelled from the spec: the LanguageGuesserPort (`Language`), with its
`guess` ranking function and the `languagesAlpha2` iso2-to-name table read
by `process`. -/
structure Guesser where
  guessFn : Option String → List String → Nat → List GuessRec
  languagesAlpha2 : List (String × String)

/-- An answer record returned by `nlgManager.findAnswer`. -/
structure AnswerRec where
  response : Option String
deriving DecidableEq, Repr

/-- Modelled from the spec: the AnswerResolver (`NlgManager`, outside
`src/`) with its `responses` store and `findAnswer` lookup. -/
structure NlgManager where
  responses : List (String × String × String)
  findAnswerFn : Option String → String → Context → Option AnswerRec

/-- Modelled from the spec: `new NlgManager()` — no responses, no answers. -/
def NlgManager.fresh : NlgManager :=
  { responses := [], findAnswerFn := fun _ _ _ => none }

/-- The full result record `process` builds and returns. -/
structure ProcessResult where
  locale : Option String
  localeIso2 : Option String
  language : Option String
  utterance : Option String
  classification : Option (List Classification)
  intent : String
  domain : Option String
  score : Rat
  entities : List Entity
  sentiment : Rat
  srcAnswer : Option String
  answer : Option String
deriving DecidableEq, Repr

/-- Modelled from the spec: the SlotResolver (`SlotManager`, outside
`src/`): per-intent required entity names, plus the `process` hook that may
mutate the result and the context and reports whether it did. -/
structure SlotManager where
  slots : List (String × List String)
  processFn : ProcessResult → Context → ProcessResult × Context × Bool

/-- Modelled from the spec: `slotManager.getIntentEntityNames(intent)` —
the whitelist of entity names tracked for the intent. -/
def SlotManager.getIntentEntityNames (s : SlotManager) (intent : String) : List String :=
  (s.slots.lookup intent).getD []

/-- Modelled from the spec: `slotManager.clear()` empties the tracked
slot state. -/
def SlotManager.clearSlots (s : SlotManager) : SlotManager :=
  { s with slots := [] }

/-- The `NlpManager` instance state: the fields of the constructor
(lines 56-79), with the external collaborators as function-valued fields
and `handlebarsRender`/`classifierTrain` standing for the template engine
and the ClassifierPort training entry point. -/
structure NlpManager where
  settings : Settings
  guesser : Guesser
  nerManager : NerManager
  sentimentProcessFn : Option String → Option String → Rat
  languages : List String
  classifiers : List (String × NlpClassifier)
  slotManager : SlotManager
  intentDomains : List (String × String)
  processTransformer : ProcessResult → ProcessResult
  nlgManager : NlgManager
  handlebarsRender : String → Context → String
  classifierTrain : NlpClassifier → Except String NlpClassifier

/-- Replace the classifier bound to a locale (`this.classifiers[locale] =
classifier` on an existing key). -/
def setClassifierState (m : NlpManager) (locale : String) (c : NlpClassifier) : NlpManager :=
  { m with classifiers := assocUpdate m.classifiers locale c }

/- ---------------------------------------------------------------------
Operations (translated from `nlp-manager.js`, line references inline).
--------------------------------------------------------------------- -/

/-- `addLanguage` body for a single locale (lines 87-97): push the
truncated locale if unseen, bind a fresh classifier if unbound.  A falsy
locale (whose truncation is `undefined`) is outside this model: JavaScript
would insert an undefined entry. -/
def addLanguageStep (m : NlpManager) (locale : String) : NlpManager :=
  match getTruncatedLocale (some locale) with
  | none => m
  | some truncated =>
    let languages :=
      if m.languages.contains truncated then m.languages
      else m.languages ++ [truncated]
    let classifiers :=
      if (m.classifiers.lookup truncated).isSome then m.classifiers
      else m.classifiers ++ [(truncated, NlpClassifier.init truncated)]
    { m with languages := languages, classifiers := classifiers }

/-- `addLanguage(srcLocales)` (lines 85-98) over a list of locales. -/
def addLanguage (m : NlpManager) (srcLocales : List String) : NlpManager :=
  srcLocales.foldl addLanguageStep m

/-- `guessLanguage(utterance)` (lines 105-108). -/
def guessLanguage (m : NlpManager) (utterance : Option String) : Option String :=
  match m.guesser.guessFn utterance m.languages 1 with
  | [] => none
  | g :: _ => some g.alpha2

/-- `getIntentDomain(intent)` (lines 180-182). -/
def getIntentDomain (m : NlpManager) (intent : String) : Option String :=
  m.intentDomains.lookup intent

/-- `classify(srcLocale, srcUtterance)` (lines 299-312): swap arguments
when the utterance is missing, truncate, return `undefined` when no
classifier is bound. -/
def classify (m : NlpManager) (srcLocale srcUtterance : Option String) :
    Option (List Classification) :=
  let p : Option String × Option String :=
    match srcUtterance with
    | none => (guessLanguage m srcLocale, srcLocale)
    | some u => (srcLocale, some u)
  match (getTruncatedLocale p.1).bind (fun t => m.classifiers.lookup t) with
  | none => none
  | some classifier => some (classifier.getClassifications p.2)

/-- `isEqualClassification(classifications)` (lines 343-350): true iff
every entry's score is exactly 0.5 (written `mkRat 1 2`). -/
def isEqualClassification (classifications : List Classification) : Bool :=
  classifications.all (fun c => c.value == mkRat 1 2)

/-- `getSentiment(srcLocale, srcUtterance)` (lines 319-328). -/
def getSentiment (m : NlpManager) (srcLocale srcUtterance : Option String) : Rat :=
  let p : Option String × Option String :=
    match srcUtterance with
    | none => (guessLanguage m srcLocale, srcLocale)
    | some u => (srcLocale, some u)
  m.sentimentProcessFn (getTruncatedLocale p.1) p.2

/-- `getAnswer(locale, intent, context)` (lines 330-336): `undefined`
unless the resolver returned an answer with a truthy response. -/
def getAnswer (m : NlpManager) (locale : Option String) (intent : String)
    (context : Context) : Option String :=
  match m.nlgManager.findAnswerFn locale intent context with
  | some answer =>
    match answer.response with
    | some r => if r = "" then none else some r
    | none => none
  | none => none

/-- Locale resolution at the head of `process` (lines 389-403): swap a
missing utterance, then, when the locale does not truncate to a registered
one, guess it, falling back to the first registered language; both paths
mark the locale as guessed.  Returns `(utterance, locale, languageGuessed)`. -/
def resolveProcessLocale (m : NlpManager) (srcLocale srcUtterance : Option String) :
    Option String × Option String × Bool :=
  let p : Option String × Option String × Bool :=
    match srcUtterance with
    | none => (srcLocale, guessLanguage m srcLocale, true)
    | some u => (some u, srcLocale, false)
  if includesOpt m.languages (getTruncatedLocale p.2.1) then p
  else
    match guessLanguage m p.1 with
    | some g => (p.1, some g, true)
    | none => (p.1, m.languages.head?, true)

/-- Running-best update of the full-search scans (lines 415-423 and
428-436): replace the best only when the candidate classification is
non-empty and its top score is strictly greater (or no best exists yet). -/
def bestStep (m : NlpManager) (utterance : Option String)
    (best : Option (Rat × List Classification)) (language : String) :
    Option (Rat × List Classification) :=
  match classify m (some language) utterance with
  | some (c :: cs) =>
    match best with
    | none => some (c.value, c :: cs)
    | some (bs, bc) => if c.value > bs then some (c.value, c :: cs) else some (bs, bc)
  | _ => best

/-- Classification arbitration of `process` (lines 412-457).  On the
guessed/full-search path: scan every registered locale on the original
utterance, then again on the entity-substituted utterance, keeping the
strictly best top score.  Otherwise: classify under the resolved locale and
replace by the substituted classification only on strictly greater top
score; line 452 reads `result.classification[0].value` unguarded, which
throws when the original classification is undefined or empty while the
substituted one is non-empty. -/
def resolveClassification (m : NlpManager) (languageGuessed : Bool)
    (utterance truncated : Option String) :
    Except String (Option (List Classification)) :=
  if languageGuessed && m.settings.fullSearchWhenGuessed then
    let best1 := m.languages.foldl (bestStep m utterance) none
    let optionalUtterance := m.nerManager.generateEntityUtteranceFn utterance truncated
    let best2 := m.languages.foldl (bestStep m optionalUtterance) best1
    Except.ok (best2.map (fun p => p.2))
  else
    let classification := classify m truncated utterance
    let optionalUtterance := m.nerManager.generateEntityUtteranceFn utterance truncated
    if optionalUtterance ≠ utterance then
      match classify m truncated optionalUtterance with
      | some (oc :: ocs) =>
        match classification with
        | some (c :: cs) =>
          Except.ok (if oc.value > c.value then some (oc :: ocs) else some (c :: cs))
        | _ => Except.error "TypeError: cannot read property 0 of undefined"
      | _ => Except.ok classification
    else Except.ok classification

/-- Outcome mapping of `process` (lines 458-470): an absent, empty or
uniformly-0.5 classification yields intent None / domain default / score 1;
otherwise the top label, its domain lookup and the top score. -/
def classificationOutcome (m : NlpManager)
    (classification : Option (List Classification)) : String × Option String × Rat :=
  match classification with
  | some (c :: cs) =>
    if isEqualClassification (c :: cs) then ("None", some "default", 1)
    else (c.label, getIntentDomain m c.label, c.value)
  | _ => ("None", some "default", 1)

/-- Merge entities into the context (lines 477-479 and 487-489):
`context[entity.entity] = entity.option || entity.utteranceText`. -/
def mergeEntities (context : Context) (entities : List Entity) : Context :=
  entities.foldl
    (fun ctx e =>
      assocUpdate ctx e.entity
        (match e.option with
         | some o => if o = "" then e.utteranceText else o
         | none => e.utteranceText))
    context

/-- Tail of `process` after the classification is fixed (lines 405-411 and
458-494): build the result record, extract entities, merge them into the
context, attach sentiment and a rendered answer, run the slot hook once and
re-render the answer when it reports a change. -/
def buildResult (m : NlpManager) (srcContext : Option Context)
    (locale truncated utterance : Option String)
    (classification : Option (List Classification)) : ProcessResult :=
  let outcome := classificationOutcome m classification
  let entities :=
    m.nerManager.findEntitiesFn utterance truncated
      (m.slotManager.getIntentEntityNames outcome.1)
  let context := mergeEntities (srcContext.getD []) entities
  let answer := getAnswer m truncated outcome.1 context
  let r : ProcessResult :=
    { locale := locale
      localeIso2 := truncated
      language := truncated.bind (fun t => m.guesser.languagesAlpha2.lookup t)
      utterance := utterance
      classification := classification
      intent := outcome.1
      domain := outcome.2.1
      score := outcome.2.2
      entities := entities
      sentiment := getSentiment m truncated utterance
      srcAnswer := answer
      answer := answer.map (fun a => m.handlebarsRender a context) }
  let slotted := m.slotManager.processFn r context
  if slotted.2.2 then
    let context2 := mergeEntities slotted.2.1 slotted.1.entities
    match slotted.1.srcAnswer with
    | some sa =>
      if sa = "" then slotted.1
      else { slotted.1 with answer := some (m.handlebarsRender sa context2) }
    | none => slotted.1
  else slotted.1

/-- `process(srcLocale, srcUtterance, srcContext)` (lines 388-495):
resolve the locale, arbitrate the classification (this step can throw, see
`resolveClassification`), build the rest of the result and apply the
injected transformer. -/
def process (m : NlpManager) (srcLocale srcUtterance : Option String)
    (srcContext : Option Context) : Except String ProcessResult :=
  match resolveClassification m (resolveProcessLocale m srcLocale srcUtterance).2.2
      (resolveProcessLocale m srcLocale srcUtterance).1
      (getTruncatedLocale (resolveProcessLocale m srcLocale srcUtterance).2.1) with
  | Except.error e => Except.error e
  | Except.ok classification =>
    Except.ok (m.processTransformer
      (buildResult m srcContext
        (resolveProcessLocale m srcLocale srcUtterance).2.1
        (getTruncatedLocale (resolveProcessLocale m srcLocale srcUtterance).2.1)
        (resolveProcessLocale m srcLocale srcUtterance).1
        classification))

/-- `clear()` (lines 500-506): fresh NER state, empty language list and
classifier map, cleared slot state, fresh NLG manager.  Note that
`intentDomains` and `settings` are not touched. -/
def clear (m : NlpManager) : NlpManager :=
  { m with
    nerManager := NerManager.fresh m.settings.ner
    languages := []
    classifiers := []
    slotManager := m.slotManager.clearSlots
    nlgManager := NlgManager.fresh }

/-- `train(locale)` (lines 275-291): resolve the target locale list
(argument or the whole registry) and train each locale's classifier;
a locale whose truncation has no bound classifier is skipped silently
(`if (classifier)`).  A failing training rejects the whole call. -/
def train (m : NlpManager) (srcLocales : Option (List String)) :
    Except String NlpManager :=
  let languages :=
    match srcLocales with
    | some ls => ls
    | none => m.languages
  languages.foldlM
    (fun acc language =>
      match getTruncatedLocale (some language) with
      | some truncated =>
        match acc.classifiers.lookup truncated with
        | some classifier =>
          match m.classifierTrain classifier with
          | Except.ok c => Except.ok (setClassifierState acc truncated c)
          | Except.error e => Except.error e
        | none => Except.ok acc
      | none => Except.ok acc)
    m

/-- One per-locale classifier snapshot inside the persisted model. -/
structure ClassifierClone where
  language : String
  docs : List String
  features : List String
  logistic : LogisticState
deriving DecidableEq, Repr

/-- The persisted model object built by `export` (before stringification)
and consumed by `import`. -/
structure ModelClone where
  settings : Settings
  languages : List String
  intentDomains : List (String × String)
  nerManager : List String
  slotManager : List (String × List String)
  classifiers : List ClassifierClone
  responses : List (String × String × String)

/-- `export()` (lines 557-596).  For each registered language the clone's
`logistic.observations` starts as an alias of the live
`classifier.settings.classifier.observations`, and the sparse rows are
written back through that alias — so encoding also replaces the live dense
rows.  A registered language with no bound classifier makes the JavaScript
throw reading `classifier.settings`. -/
def exportModel (m : NlpManager) : Except String (ModelClone × NlpManager) :=
  match
    m.languages.foldlM
      (fun (acc : List ClassifierClone × NlpManager) language =>
        match acc.2.classifiers.lookup language with
        | none => Except.error "TypeError: cannot read settings of undefined"
        | some classifier =>
          let encoded := exportObservations classifier.classifier.observations
          let classifierClone : ClassifierClone :=
            { language := classifier.language
              docs := classifier.docs
              features := classifier.features
              logistic := { classifier.classifier with observations := encoded } }
          let mutated :=
            { classifier with
              classifier := { classifier.classifier with observations := encoded } }
          Except.ok (acc.1 ++ [classifierClone],
            setClassifierState acc.2 language mutated))
      (([] : List ClassifierClone), m)
  with
  | Except.error e => Except.error e
  | Except.ok acc =>
    Except.ok
      ({ settings := acc.2.settings
         languages := acc.2.languages
         intentDomains := acc.2.intentDomains
         nerManager := acc.2.nerManager.entities
         slotManager := acc.2.slotManager.slots
         classifiers := acc.1
         responses := acc.2.nlgManager.responses }, acc.2)

/-- `import(data)` (lines 512-550): restore the scalar state, then for
each classifier snapshot register its language, decode the sparse
observations against `features.length` and reattach the carried fields.
A snapshot language that is not its own truncation leaves the lookup
empty (the JavaScript would throw assigning to `undefined`). -/
def importModel (m : NlpManager) (clone : ModelClone) : NlpManager :=
  let m1 :=
    { m with
      settings := clone.settings
      languages := clone.languages
      nerManager := { m.nerManager with entities := clone.nerManager }
      slotManager := { m.slotManager with slots := clone.slotManager }
      intentDomains := clone.intentDomains
      nlgManager := { m.nlgManager with responses := clone.responses } }
  clone.classifiers.foldl
    (fun acc classifierClone =>
      let acc1 := addLanguage acc [classifierClone.language]
      match acc1.classifiers.lookup classifierClone.language with
      | none => acc1
      | some classifier =>
        setClassifierState acc1 classifierClone.language
          { classifier with
            docs := classifierClone.docs
            features := classifierClone.features
            classifier :=
              { observations :=
                  importObservations classifierClone.features.length
                    classifierClone.logistic.observations
                labels := classifierClone.logistic.labels
                classifications := classifierClone.logistic.classifications
                observationCount := classifierClone.logistic.observationCount
                theta := classifierClone.logistic.theta } })
    m1

/- ---------------------------------------------------------------------
Helper lemmas shared by the claim theorems.
--------------------------------------------------------------------- -/

lemma buildResult_fields (m : NlpManager) (srcContext : Option Context)
    (locale truncated utterance : Option String)
    (classification : Option (List Classification))
    (hS : ∀ r c, m.slotManager.processFn r c = (r, c, false)) :
    (buildResult m srcContext locale truncated utterance classification).classification
        = classification ∧
      (buildResult m srcContext locale truncated utterance classification).locale = locale ∧
      (buildResult m srcContext locale truncated utterance classification).intent
        = (classificationOutcome m classification).1 ∧
      (buildResult m srcContext locale truncated utterance classification).domain
        = (classificationOutcome m classification).2.1 ∧
      (buildResult m srcContext locale truncated utterance classification).score
        = (classificationOutcome m classification).2.2 := by
  unfold buildResult
  simp [hS]

lemma process_ok_of_resolve (m : NlpManager) (srcLocale srcUtterance : Option String)
    (srcContext : Option Context) (classification : Option (List Classification))
    (hres : resolveClassification m (resolveProcessLocale m srcLocale srcUtterance).2.2
        (resolveProcessLocale m srcLocale srcUtterance).1
        (getTruncatedLocale (resolveProcessLocale m srcLocale srcUtterance).2.1)
      = Except.ok classification) :
    process m srcLocale srcUtterance srcContext =
      Except.ok (m.processTransformer (buildResult m srcContext
        (resolveProcessLocale m srcLocale srcUtterance).2.1
        (getTruncatedLocale (resolveProcessLocale m srcLocale srcUtterance).2.1)
        (resolveProcessLocale m srcLocale srcUtterance).1 classification)) := by
  unfold process
  rw [hres]

lemma process_ok_inv (m : NlpManager) (srcLocale srcUtterance : Option String)
    (srcContext : Option Context) (r : ProcessResult)
    (h : process m srcLocale srcUtterance srcContext = Except.ok r) :
    ∃ classification,
      resolveClassification m (resolveProcessLocale m srcLocale srcUtterance).2.2
          (resolveProcessLocale m srcLocale srcUtterance).1
          (getTruncatedLocale (resolveProcessLocale m srcLocale srcUtterance).2.1)
        = Except.ok classification ∧
      r = m.processTransformer (buildResult m srcContext
        (resolveProcessLocale m srcLocale srcUtterance).2.1
        (getTruncatedLocale (resolveProcessLocale m srcLocale srcUtterance).2.1)
        (resolveProcessLocale m srcLocale srcUtterance).1 classification) := by
  unfold process at h
  cases hres : resolveClassification m (resolveProcessLocale m srcLocale srcUtterance).2.2
      (resolveProcessLocale m srcLocale srcUtterance).1
      (getTruncatedLocale (resolveProcessLocale m srcLocale srcUtterance).2.1) with
  | error e => rw [hres] at h; exact absurd h (by simp)
  | ok cls =>
    rw [hres] at h
    exact ⟨cls, rfl, (Except.ok.inj h).symm⟩

lemma foldl_bestStep_le (m : NlpManager) (utt : Option String) (bv : Rat)
    (bc : List Classification) (ls : List String)
    (h : ∀ L ∈ ls, ∀ c cs, classify m (some L) utt = some (c :: cs) → c.value ≤ bv) :
    ls.foldl (bestStep m utt) (some (bv, bc)) = some (bv, bc) := by
  induction ls with
  | nil => rfl
  | cons L rest ih =>
    rw [List.foldl_cons]
    have hstep : bestStep m utt (some (bv, bc)) L = some (bv, bc) := by
      unfold bestStep
      cases hc : classify m (some L) utt with
      | none => rfl
      | some cls =>
        cases cls with
        | nil => rfl
        | cons c cs =>
          have hle : ¬ c.value > bv := not_lt.2 (h L (by simp) c cs hc)
          simp [hle]
    rw [hstep]
    exact ih (fun L' hL' c cs hc => h L' (by simp [hL']) c cs hc)

lemma foldl_bestStep_lt (m : NlpManager) (utt : Option String) (bv : Rat)
    (ls : List String)
    (h : ∀ L ∈ ls, ∀ c cs, classify m (some L) utt = some (c :: cs) → c.value < bv) :
    ∀ init, (init = none ∨ ∃ v c, init = some (v, c) ∧ v < bv) →
      (ls.foldl (bestStep m utt) init = none ∨
        ∃ v c, ls.foldl (bestStep m utt) init = some (v, c) ∧ v < bv) := by
  induction ls with
  | nil => intro init hinit; simpa using hinit
  | cons L rest ih =>
    intro init hinit
    rw [List.foldl_cons]
    apply ih (fun L' hL' c cs hc => h L' (by simp [hL']) c cs hc)
    unfold bestStep
    cases hc : classify m (some L) utt with
    | none => simpa using hinit
    | some cls =>
      cases cls with
      | nil => simpa using hinit
      | cons c cs =>
        have hcv : c.value < bv := h L (by simp) c cs hc
        rcases hinit with hinit | ⟨v, bc, hinit, hv⟩
        · subst hinit
          exact Or.inr ⟨c.value, c :: cs, rfl, hcv⟩
        · subst hinit
          by_cases hgt : c.value > v
          · refine Or.inr ⟨c.value, c :: cs, ?_, hcv⟩
            simp [hgt]
          · refine Or.inr ⟨v, bc, ?_, hv⟩
            simp [hgt]

lemma resolveClassification_fullSearch (m : NlpManager) (utt truncated : Option String)
    (pre post : List String) (B : String) (b : Classification) (bs : List Classification)
    (hfs : m.settings.fullSearchWhenGuessed = true)
    (hsplit : m.languages = pre ++ B :: post)
    (hB : classify m (some B) utt = some (b :: bs))
    (hpre : ∀ A ∈ pre, ∀ c cs, classify m (some A) utt = some (c :: cs) → c.value < b.value)
    (hpost : ∀ C ∈ post, ∀ c cs, classify m (some C) utt = some (c :: cs) → c.value ≤ b.value)
    (hsub : ∀ L ∈ m.languages, ∀ c cs,
      classify m (some L) (m.nerManager.generateEntityUtteranceFn utt truncated)
          = some (c :: cs) →
        c.value ≤ b.value) :
    resolveClassification m true utt truncated = Except.ok (some (b :: bs)) := by
  unfold resolveClassification
  rw [hfs]
  simp only [Bool.and_self, if_pos]
  have h1 : m.languages.foldl (bestStep m utt) none = some (b.value, b :: bs) := by
    rw [hsplit, List.foldl_append, List.foldl_cons]
    have hinit := foldl_bestStep_lt m utt b.value pre hpre none (Or.inl rfl)
    have hatB : bestStep m utt (pre.foldl (bestStep m utt) none) B
        = some (b.value, b :: bs) := by
      rcases hinit with hnone | ⟨v, bc, hsome, hv⟩
      · rw [hnone]; simp [bestStep, hB]
      · rw [hsome]; simp [bestStep, hB, hv, gt_iff_lt]
    rw [hatB]
    exact foldl_bestStep_le m utt b.value (b :: bs) post hpost
  have h2 : m.languages.foldl
      (bestStep m (m.nerManager.generateEntityUtteranceFn utt truncated))
      (some (b.value, b :: bs)) = some (b.value, b :: bs) :=
    foldl_bestStep_le m _ b.value (b :: bs) m.languages hsub
  rw [h1, h2]
  rfl

lemma lookup_append {β : Type} (l₁ l₂ : List (String × β)) (k : String) :
    (l₁ ++ l₂).lookup k = ((l₁.lookup k).map some).getD (l₂.lookup k) := by
  induction l₁ with
  | nil => simp
  | cons p rest ih =>
    cases p with
    | mk k' v =>
      rw [List.cons_append, List.lookup_cons, List.lookup_cons]
      cases hk : k == k' with
      | true => simp
      | false => simpa using ih

lemma lookup_eq_none_iff {β : Type} (l : List (String × β)) (k : String) :
    l.lookup k = none ↔ k ∉ l.map Prod.fst := by
  induction l with
  | nil => simp
  | cons p rest ih =>
    cases p with
    | mk k' v =>
      rw [List.lookup_cons]
      cases hk : k == k' with
      | true =>
        have : k = k' := by simpa using hk
        subst this
        simp
      | false =>
        have : ¬ k = k' := by simpa using hk
        simp [this, ih]

/-- A baseline manager with no registered locales and inert collaborator
ports, used to build the concrete instances in the witnesses below. -/
def baseManager : NlpManager :=
  { settings := { ner := none, fullSearchWhenGuessed := true, useNlg := true }
    guesser := { guessFn := fun _ _ _ => [], languagesAlpha2 := [] }
    nerManager := NerManager.fresh none
    sentimentProcessFn := fun _ _ => 0
    languages := []
    classifiers := []
    slotManager := { slots := [], processFn := fun r c => (r, c, false) }
    intentDomains := []
    processTransformer := id
    nlgManager := NlgManager.fresh
    handlebarsRender := fun s _ => s
    classifierTrain := fun c => Except.ok c }

/- ---------------------------------------------------------------------
C2 — export as a pure snapshot.
--------------------------------------------------------------------- -/

/-- A trained classifier for C2 holding one dense observation row. -/
def c2classifier : NlpClassifier :=
  { NlpClassifier.init "en" with
    features := ["f0", "f1", "f2"]
    classifier := { observations := [("greet", [[0, 1, 0]])], labels := ["greet"],
                    classifications := ["greet"], observationCount := 1, theta := [0] } }

/-- Manager state for the C2 failing input. -/
def mC2 : NlpManager :=
  { baseManager with languages := ["en"], classifiers := [("en", c2classifier)] }

/-- C2.  The claim says `export` leaves each classifier's dense observation
matrix unchanged; evaluating the code on a classifier whose matrix holds
the dense row `[0, 1, 0]` shows that after `export` the live matrix holds
the sparse index row `[1]` instead — the clone's observations alias the
live state and encoding writes the sparse rows back through the alias. -/
theorem c2_export_corrupts_observations :
    (mC2.classifiers.lookup "en").map (fun c => c.classifier.observations)
        = some [("greet", [[0, 1, 0]])] ∧
      (exportModel mC2).map
          (fun p => (p.2.classifiers.lookup "en").map (fun c => c.classifier.observations))
        = Except.ok (some [("greet", [[1]])]) ∧
      some [("greet", [[1]])] ≠ some [("greet", [[0, 1, 0]])] := by
  exact ⟨rfl, rfl, by decide⟩

/- ---------------------------------------------------------------------
C6 — clear.
--------------------------------------------------------------------- -/

/-- Manager state for the C6 counterexample: one assigned intent domain. -/
def mC6 : NlpManager :=
  { baseManager with languages := ["en"], intentDomains := [("greet", "chat")] }

/-- C6 counterexample.  The claim says `clear` empties the intent-to-domain
map; on a manager with one assignment the map is untouched by `clear`. -/
theorem c6_counterexample :
    (clear mC6).intentDomains = [("greet", "chat")] ∧
      [("greet", "chat")] ≠ ([] : List (String × String)) :=
  ⟨rfl, by decide⟩

/-- C6 (amended).  `clear` resets the language list, the classifier map,
the NER state, the slot state and the responses to empty and keeps the
settings object unchanged — but it leaves the intent-to-domain map exactly
as it was. -/
theorem c6_clear_resets (m : NlpManager) :
    (clear m).languages = [] ∧ (clear m).classifiers = [] ∧
      (clear m).nerManager.entities = [] ∧ (clear m).slotManager.slots = [] ∧
      (clear m).nlgManager.responses = [] ∧ (clear m).settings = m.settings ∧
      (clear m).intentDomains = m.intentDomains :=
  ⟨rfl, rfl, rfl, rfl, rfl, rfl, rfl⟩

/- ---------------------------------------------------------------------
C8 — train and missing classifiers.
--------------------------------------------------------------------- -/

/-- C8 counterexample.  The claim says a `train` call whose resolved locale
set contains an unbound locale raises a missing-classifier error; on a
manager with no classifier bound to `xx`, `train(["xx"])` completes
without error and leaves the manager untouched. -/
theorem c8_counterexample :
    (getTruncatedLocale (some "xx")).bind (fun t => baseManager.classifiers.lookup t)
        = none ∧
      train baseManager (some ["xx"]) = Except.ok baseManager :=
  ⟨rfl, rfl⟩

lemma foldlM_trainStep_skips (m : NlpManager) (ls : List String)
    (h : ∀ l ∈ ls,
      (getTruncatedLocale (some l)).bind (fun t => m.classifiers.lookup t) = none) :
    ls.foldlM
      (fun acc language =>
        match getTruncatedLocale (some language) with
        | some truncated =>
          match acc.classifiers.lookup truncated with
          | some classifier =>
            match m.classifierTrain classifier with
            | Except.ok c => Except.ok (setClassifierState acc truncated c)
            | Except.error e => Except.error e
          | none => Except.ok acc
        | none => Except.ok acc)
      m = Except.ok m := by
  induction ls with
  | nil => rfl
  | cons l rest ih =>
    rw [List.foldlM_cons]
    have hl := h l (by simp)
    have hstep :
        (match getTruncatedLocale (some l) with
          | some truncated =>
            match m.classifiers.lookup truncated with
            | some classifier =>
              match m.classifierTrain classifier with
              | Except.ok c => Except.ok (setClassifierState m truncated c)
              | Except.error e => Except.error e
            | none => Except.ok m
          | none => Except.ok m) = Except.ok m := by
      cases htr : getTruncatedLocale (some l) with
      | none => rfl
      | some t =>
        rw [htr] at hl
        simp only [Option.bind] at hl
        simp [hl]
    rw [hstep]
    simpa using ih (fun l' hl' => h l' (by simp [hl']))

/-- C8 (amended).  `train` never raises a missing-classifier error: a
resolved locale whose truncation has no bound classifier is silently
skipped, so a call whose resolved locales are all unbound completes
successfully with the manager unchanged (only a bound classifier's own
training failure can fail the call). -/
theorem c8_train_skips_unbound (m : NlpManager) (srcLocales : Option (List String))
    (h : ∀ l ∈ (match srcLocales with | some ls => ls | none => m.languages),
      (getTruncatedLocale (some l)).bind (fun t => m.classifiers.lookup t) = none) :
    train m srcLocales = Except.ok m := by
  unfold train
  exact foldlM_trainStep_skips m _ h

/-- Manager for the C8 witness: a registered language with no classifier. -/
def mC8w : NlpManager := { baseManager with languages := ["fr"] }

/-- Witness for the amended C8 at a concrete manager whose registry holds
one unbound locale, trained with no argument. -/
theorem c8_train_skips_unbound_witness : train mC8w none = Except.ok mC8w :=
  c8_train_skips_unbound mC8w none
    (by
      intro l hl
      have hl2 : l ∈ ["fr"] := hl
      rw [List.mem_singleton] at hl2
      subst hl2
      rfl)


/- ---------------------------------------------------------------------
C7 — registry uniqueness and idempotence of addLanguage.
--------------------------------------------------------------------- -/

lemma contains_iff (l : List String) (t : String) : l.contains t = true ↔ t ∈ l :=
  List.elem_iff

/-- The registry invariant: no duplicate locales, no duplicate classifier
bindings, and every registered locale has a bound classifier. -/
def registryInv (m : NlpManager) : Prop :=
  m.languages.Nodup ∧ (m.classifiers.map Prod.fst).Nodup ∧
    ∀ x ∈ m.languages, (m.classifiers.lookup x).isSome

lemma addLanguageStep_languages (m : NlpManager) (l t : String)
    (htr : getTruncatedLocale (some l) = some t) :
    (addLanguageStep m l).languages =
      if t ∈ m.languages then m.languages else m.languages ++ [t] := by
  unfold addLanguageStep
  rw [htr]
  show (if m.languages.contains t = true then m.languages else m.languages ++ [t])
    = if t ∈ m.languages then m.languages else m.languages ++ [t]
  by_cases hc : t ∈ m.languages
  · rw [if_pos ((contains_iff _ _).2 hc), if_pos hc]
  · rw [if_neg (fun hh => hc ((contains_iff _ _).1 hh)), if_neg hc]

lemma addLanguageStep_classifiers (m : NlpManager) (l t : String)
    (htr : getTruncatedLocale (some l) = some t) :
    (addLanguageStep m l).classifiers =
      if (m.classifiers.lookup t).isSome then m.classifiers
      else m.classifiers ++ [(t, NlpClassifier.init t)] := by
  unfold addLanguageStep
  rw [htr]

lemma addLanguageStep_id_of_none (m : NlpManager) (l : String)
    (htr : getTruncatedLocale (some l) = none) : addLanguageStep m l = m := by
  unfold addLanguageStep
  rw [htr]

lemma isSome_ne_none {β : Type} {o : Option β} (h : ¬ o.isSome = true) : o = none := by
  cases o with
  | none => rfl
  | some v => simp at h

lemma addLanguageStep_inv (m : NlpManager) (l : String) (h : registryInv m) :
    registryInv (addLanguageStep m l) := by
  rcases h with ⟨h1, h2, h3⟩
  cases htr : getTruncatedLocale (some l) with
  | none => rw [addLanguageStep_id_of_none m l htr]; exact ⟨h1, h2, h3⟩
  | some t =>
    rw [registryInv, addLanguageStep_languages m l t htr,
      addLanguageStep_classifiers m l t htr]
    refine ⟨?_, ?_, ?_⟩
    · by_cases hc : t ∈ m.languages
      · rw [if_pos hc]; exact h1
      · rw [if_neg hc, ← List.concat_eq_append]
        exact h1.concat hc
    · by_cases hk : (m.classifiers.lookup t).isSome
      · rw [if_pos hk]; exact h2
      · have hmem : t ∉ m.classifiers.map Prod.fst :=
          (lookup_eq_none_iff _ _).1 (isSome_ne_none hk)
        rw [if_neg hk, List.map_append,
          show (List.map Prod.fst [(t, NlpClassifier.init t)]) = [t] from rfl,
          ← List.concat_eq_append]
        exact h2.concat hmem
    · intro x hx
      have hstep : ∀ y, (m.classifiers.lookup y).isSome →
          ((if (m.classifiers.lookup t).isSome then m.classifiers
            else m.classifiers ++ [(t, NlpClassifier.init t)]).lookup y).isSome := by
        intro y hy
        by_cases hk : (m.classifiers.lookup t).isSome
        · rw [if_pos hk]; exact hy
        · rw [if_neg hk, lookup_append]
          cases hcl : m.classifiers.lookup y with
          | none => rw [hcl] at hy; simp at hy
          | some c => simp
      have htlook :
          ((if (m.classifiers.lookup t).isSome then m.classifiers
            else m.classifiers ++ [(t, NlpClassifier.init t)]).lookup t).isSome := by
        by_cases hk : (m.classifiers.lookup t).isSome
        · rw [if_pos hk]; exact hk
        · rw [if_neg hk, lookup_append, isSome_ne_none hk]
          simp [List.lookup_cons]
      by_cases hc : t ∈ m.languages
      · rw [if_pos hc] at hx
        exact hstep x (h3 x hx)
      · rw [if_neg hc] at hx
        rcases List.mem_append.1 hx with hx | hx
        · exact hstep x (h3 x hx)
        · rw [List.mem_singleton] at hx
          subst hx
          exact htlook

lemma addLanguageStep_keeps_mem (m : NlpManager) (l : String) (x : String)
    (h : x ∈ m.languages) : x ∈ (addLanguageStep m l).languages := by
  cases htr : getTruncatedLocale (some l) with
  | none => rw [addLanguageStep_id_of_none m l htr]; exact h
  | some t =>
    rw [addLanguageStep_languages m l t htr]
    by_cases hc : t ∈ m.languages
    · rw [if_pos hc]; exact h
    · rw [if_neg hc]; exact List.mem_append.2 (Or.inl h)

lemma addLanguageStep_adds (m : NlpManager) (l t : String)
    (htr : getTruncatedLocale (some l) = some t) :
    t ∈ (addLanguageStep m l).languages := by
  rw [addLanguageStep_languages m l t htr]
  by_cases hc : t ∈ m.languages
  · rw [if_pos hc]; exact hc
  · rw [if_neg hc]; exact List.mem_append.2 (Or.inr (by simp))

lemma addLanguageStep_keeps_classifier (m : NlpManager) (l : String) (t : String)
    (c : NlpClassifier) (h : m.classifiers.lookup t = some c) :
    (addLanguageStep m l).classifiers.lookup t = some c := by
  cases htr : getTruncatedLocale (some l) with
  | none => rw [addLanguageStep_id_of_none m l htr]; exact h
  | some t' =>
    rw [addLanguageStep_classifiers m l t' htr]
    by_cases hk : (m.classifiers.lookup t').isSome
    · rw [if_pos hk]; exact h
    · rw [if_neg hk, lookup_append, h]
      rfl

lemma addLanguage_inv (m : NlpManager) (srcLocales : List String)
    (h : registryInv m) : registryInv (addLanguage m srcLocales) := by
  induction srcLocales generalizing m with
  | nil => exact h
  | cons l rest ih =>
    exact ih (addLanguageStep m l) (addLanguageStep_inv m l h)

lemma addLanguage_keeps_mem (m : NlpManager) (srcLocales : List String) (x : String)
    (h : x ∈ m.languages) : x ∈ (addLanguage m srcLocales).languages := by
  induction srcLocales generalizing m with
  | nil => exact h
  | cons l rest ih =>
    exact ih (addLanguageStep m l) (addLanguageStep_keeps_mem m l x h)

lemma addLanguage_keeps_classifier (m : NlpManager) (srcLocales : List String)
    (t : String) (c : NlpClassifier) (h : m.classifiers.lookup t = some c) :
    (addLanguage m srcLocales).classifiers.lookup t = some c := by
  induction srcLocales generalizing m with
  | nil => exact h
  | cons l rest ih =>
    exact ih (addLanguageStep m l) (addLanguageStep_keeps_classifier m l t c h)

lemma addLanguage_mem_of_added (m : NlpManager) (srcLocales : List String)
    (l t : String) (hl : l ∈ srcLocales) (htr : getTruncatedLocale (some l) = some t) :
    t ∈ (addLanguage m srcLocales).languages := by
  induction srcLocales generalizing m with
  | nil => cases hl
  | cons l' rest ih =>
    rcases List.mem_cons.1 hl with hl | hl
    · subst hl
      exact addLanguage_keeps_mem (addLanguageStep m l) rest t
        (addLanguageStep_adds m l t htr)
    · exact ih (addLanguageStep m l') hl

/-- C7.  Starting from any manager satisfying the registry invariant,
`addLanguage` over any list of non-empty locale codes preserves the
invariant; every added locale's truncation appears exactly once in the
language list (however many times and in whatever spelling it was added),
every registered locale keeps exactly one bound classifier, and a locale
that already had a classifier keeps that very classifier. -/
theorem c7_addLanguage_unique_idempotent (m : NlpManager) (srcLocales : List String)
    (hinv : registryInv m) (hne : ∀ l ∈ srcLocales, l ≠ "") :
    registryInv (addLanguage m srcLocales) ∧
      (∀ l ∈ srcLocales,
        (addLanguage m srcLocales).languages.count (truncateLocale l) = 1) ∧
      (∀ t c, m.classifiers.lookup t = some c →
        (addLanguage m srcLocales).classifiers.lookup t = some c) := by
  have hinv' := addLanguage_inv m srcLocales hinv
  refine ⟨hinv', ?_, ?_⟩
  · intro l hl
    have htr : getTruncatedLocale (some l) = some (truncateLocale l) := by
      show (if l = "" then none else some (truncateLocale l))
        = some (truncateLocale l)
      rw [if_neg (hne l hl)]
    exact List.count_eq_one_of_mem hinv'.1
      (addLanguage_mem_of_added m srcLocales l _ hl htr)
  · intro t c h
    exact addLanguage_keeps_classifier m srcLocales t c h

/-- Witness for C7: an empty registry, adding `en` twice under two
spellings; the truncated locale `en` ends up registered exactly once. -/
theorem c7_addLanguage_unique_idempotent_witness :
    registryInv (addLanguage baseManager ["en", "English"]) ∧
      (addLanguage baseManager ["en", "English"]).languages.count "en" = 1 := by
  have h := c7_addLanguage_unique_idempotent baseManager ["en", "English"]
    ⟨List.nodup_nil, List.nodup_nil, by intro x hx; cases hx⟩
    (by
      intro l hl
      rcases List.mem_cons.1 hl with hl | hl
      · subst hl; decide
      · rw [List.mem_singleton] at hl; subst hl; decide)
  refine ⟨h.1, ?_⟩
  have h2 := h.2.1 "en" (by simp)
  rw [show truncateLocale "en" = "en" from rfl] at h2
  exact h2

/- ---------------------------------------------------------------------
C4 — degenerate-classification outcome mapping.
--------------------------------------------------------------------- -/

lemma isEqualClassification_iff (cls : List Classification) :
    isEqualClassification cls = true ↔ ∀ c ∈ cls, c.value = mkRat 1 2 := by
  unfold isEqualClassification
  rw [List.all_eq_true]
  constructor
  · intro h c hc
    exact beq_iff_eq.1 (h c hc)
  · intro h c hc
    exact beq_iff_eq.2 (h c hc)

lemma process_result_of_resolve (m : NlpManager) (srcLocale srcUtterance : Option String)
    (srcContext : Option Context) (cls : Option (List Classification))
    (hT : m.processTransformer = id)
    (hS : ∀ x c, m.slotManager.processFn x c = (x, c, false))
    (hres : resolveClassification m (resolveProcessLocale m srcLocale srcUtterance).2.2
        (resolveProcessLocale m srcLocale srcUtterance).1
        (getTruncatedLocale (resolveProcessLocale m srcLocale srcUtterance).2.1)
      = Except.ok cls) :
    ∃ r, process m srcLocale srcUtterance srcContext = Except.ok r ∧
      r.classification = cls ∧
      r.locale = (resolveProcessLocale m srcLocale srcUtterance).2.1 ∧
      r.intent = (classificationOutcome m cls).1 ∧
      r.domain = (classificationOutcome m cls).2.1 ∧
      r.score = (classificationOutcome m cls).2.2 := by
  refine ⟨_, process_ok_of_resolve m srcLocale srcUtterance srcContext cls hres, ?_⟩
  rw [hT]
  simp only [id_eq]
  exact buildResult_fields m srcContext _ _ _ cls hS

/-- C4.  For every `process` call that returns a result (under an identity
transformer and a slot hook that reports no change), if the final
classification is absent, empty, or scores every entry exactly 0.5, the
result carries intent None, domain default and score 1; otherwise the
intent is the top label, the domain is the intent-domain-map lookup of
that label, and the score is the top score. -/
theorem c4_degenerate_outcome_mapping (m : NlpManager)
    (srcLocale srcUtterance : Option String) (srcContext : Option Context)
    (r : ProcessResult)
    (hT : m.processTransformer = id)
    (hS : ∀ x c, m.slotManager.processFn x c = (x, c, false))
    (hr : process m srcLocale srcUtterance srcContext = Except.ok r) :
    ((∀ cls, r.classification = some cls → ∀ c ∈ cls, c.value = mkRat 1 2) →
        r.intent = "None" ∧ r.domain = some "default" ∧ r.score = 1) ∧
      (∀ c cs, r.classification = some (c :: cs) →
        ¬ (∀ x ∈ c :: cs, x.value = mkRat 1 2) →
        r.intent = c.label ∧ r.domain = getIntentDomain m c.label ∧ r.score = c.value) := by
  rcases process_ok_inv m srcLocale srcUtterance srcContext r hr with ⟨cls, hres, hrEq⟩
  rw [hT] at hrEq
  simp only [id_eq] at hrEq
  rcases buildResult_fields m srcContext
      (resolveProcessLocale m srcLocale srcUtterance).2.1
      (getTruncatedLocale (resolveProcessLocale m srcLocale srcUtterance).2.1)
      (resolveProcessLocale m srcLocale srcUtterance).1 cls hS with
    ⟨hcl, hloc, hint, hdom, hsc⟩
  rw [← hrEq] at hcl hint hdom hsc
  constructor
  · intro hall
    have houtcome : classificationOutcome m cls = ("None", some "default", 1) := by
      cases cls with
      | none => rfl
      | some l =>
        cases l with
        | nil => rfl
        | cons c cs =>
          have heq : isEqualClassification (c :: cs) = true :=
            (isEqualClassification_iff _).2 (hall (c :: cs) hcl)
          simp [classificationOutcome, heq]
    exact ⟨by rw [hint, houtcome], by rw [hdom, houtcome], by rw [hsc, houtcome]⟩
  · intro c cs hc hne
    rw [hcl] at hc
    subst hc
    have heq : isEqualClassification (c :: cs) = false := by
      cases hiq : isEqualClassification (c :: cs) with
      | false => rfl
      | true => exact absurd ((isEqualClassification_iff _).1 hiq) hne
    have houtcome : classificationOutcome m (some (c :: cs))
        = (c.label, getIntentDomain m c.label, c.value) := by
      simp [classificationOutcome, heq]
    exact ⟨by rw [hint, houtcome], by rw [hdom, houtcome], by rw [hsc, houtcome]⟩

/-- Manager for the C4 witness: one registered locale with the untrained
classifier, which classifies everything to the empty result. -/
def m4 : NlpManager :=
  { baseManager with languages := ["en"], classifiers := [("en", NlpClassifier.init "en")] }

/-- The result `process` computes on the C4 witness input. -/
def R4 : ProcessResult :=
  { locale := some "en", localeIso2 := some "en", language := none,
    utterance := some "hi", classification := some [], intent := "None",
    domain := some "default", score := 1, entities := [], sentiment := 0,
    srcAnswer := none, answer := none }

/-- Witness for C4: on the untrained classifier the classification is
empty and `process` reports intent None, domain default, score 1. -/
theorem c4_degenerate_outcome_mapping_witness :
    R4.intent = "None" ∧ R4.domain = some "default" ∧ R4.score = 1 :=
  (c4_degenerate_outcome_mapping m4 (some "en") (some "hi") none R4 rfl
      (fun _ _ => rfl) rfl).1
    (by
      intro cls hcls c hc
      have h2 : some ([] : List Classification) = some cls := hcls
      injection h2 with h3
      subst h3
      cases hc)

/- ---------------------------------------------------------------------
C5 — entity-aware reclassification on a registered, non-guessed locale.
--------------------------------------------------------------------- -/

lemma resolveClassification_false (m : NlpManager) (utt truncated : Option String) :
    resolveClassification m false utt truncated =
      if m.nerManager.generateEntityUtteranceFn utt truncated ≠ utt then
        match classify m truncated (m.nerManager.generateEntityUtteranceFn utt truncated) with
        | some (oc :: ocs) =>
          match classify m truncated utt with
          | some (c :: cs) =>
            Except.ok (if oc.value > c.value then some (oc :: ocs) else some (c :: cs))
          | _ => Except.error "TypeError: cannot read property 0 of undefined"
        | _ => Except.ok (classify m truncated utt)
      else Except.ok (classify m truncated utt) := rfl

lemma resolveClassification_true (m : NlpManager) (utt truncated : Option String)
    (hfs : m.settings.fullSearchWhenGuessed = true) :
    resolveClassification m true utt truncated =
      Except.ok
        ((m.languages.foldl
            (bestStep m (m.nerManager.generateEntityUtteranceFn utt truncated))
            (m.languages.foldl (bestStep m utt) none)).map Prod.snd) := by
  unfold resolveClassification
  rw [hfs]
  rfl

lemma resolveProcessLocale_registered (m : NlpManager) (L u t : String)
    (htr : getTruncatedLocale (some L) = some t)
    (hreg : t ∈ m.languages) :
    resolveProcessLocale m (some L) (some u) = (some u, some L, false) := by
  unfold resolveProcessLocale
  show (if includesOpt m.languages (getTruncatedLocale (some L)) = true
      then ((some u : Option String), (some L : Option String), false)
      else match guessLanguage m (some u) with
        | some g => ((some u : Option String), some g, true)
        | none => ((some u : Option String), m.languages.head?, true))
    = (some u, some L, false)
  rw [htr]
  show (if m.languages.contains t = true
      then ((some u : Option String), (some L : Option String), false)
      else _) = (some u, some L, false)
  rw [if_pos ((contains_iff _ _).2 hreg)]

/-- C5 (amended).  On a registered, non-guessed locale whose original
classification is non-empty (under an identity transformer and a no-change
slot hook): if the entity-substituted variant classifies with a strictly
greater top score, the returned classification is the substituted one, and
the returned intent is its top label unless the substituted classification
scores uniformly 0.5, in which case the intent is None; if no substituted
classification beats the original, the original classification is kept. -/
theorem c5_entity_reclassification (m : NlpManager) (L u t : String)
    (srcContext : Option Context)
    (hT : m.processTransformer = id)
    (hS : ∀ x c, m.slotManager.processFn x c = (x, c, false))
    (htr : getTruncatedLocale (some L) = some t)
    (hreg : t ∈ m.languages)
    (c : Classification) (cs : List Classification)
    (hc : classify m (some t) (some u) = some (c :: cs)) :
    (∀ oc ocs,
        classify m (some t) (m.nerManager.generateEntityUtteranceFn (some u) (some t))
            = some (oc :: ocs) →
        oc.value > c.value →
        ∃ r, process m (some L) (some u) srcContext = Except.ok r ∧
          r.classification = some (oc :: ocs) ∧
          (isEqualClassification (oc :: ocs) = false → r.intent = oc.label) ∧
          (isEqualClassification (oc :: ocs) = true → r.intent = "None")) ∧
      ((∀ oc ocs,
          classify m (some t) (m.nerManager.generateEntityUtteranceFn (some u) (some t))
              = some (oc :: ocs) →
          ¬ oc.value > c.value) →
        ∃ r, process m (some L) (some u) srcContext = Except.ok r ∧
          r.classification = some (c :: cs)) := by
  have hrl := resolveProcessLocale_registered m L u t htr hreg
  have hproj : ∀ X, resolveClassification m false (some u) (some t) = Except.ok X →
      resolveClassification m (resolveProcessLocale m (some L) (some u)).2.2
        (resolveProcessLocale m (some L) (some u)).1
        (getTruncatedLocale (resolveProcessLocale m (some L) (some u)).2.1)
        = Except.ok X := by
    intro X hX
    rw [hrl]
    show resolveClassification m false (some u) (getTruncatedLocale (some L)) = Except.ok X
    rw [htr]
    exact hX
  constructor
  · intro oc ocs hoc hgt
    by_cases hopt : m.nerManager.generateEntityUtteranceFn (some u) (some t) = some u
    · rw [hopt, hc] at hoc
      injection hoc with h2
      injection h2 with h3 h4
      subst h3
      exact absurd hgt (lt_irrefl c.value)
    · have hval : resolveClassification m false (some u) (some t)
          = Except.ok (some (oc :: ocs)) := by
        rw [resolveClassification_false, if_pos hopt, hoc, hc]
        simp [hgt]
      rcases process_result_of_resolve m (some L) (some u) srcContext _ hT hS
        (hproj _ hval) with ⟨r, hp, hcl, hloc, hint, hdom, hsc⟩
      refine ⟨r, hp, hcl, ?_, ?_⟩
      · intro hfalse
        rw [hint]
        simp [classificationOutcome, hfalse]
      · intro htrue
        rw [hint]
        simp [classificationOutcome, htrue]
  · intro hno
    by_cases hopt : m.nerManager.generateEntityUtteranceFn (some u) (some t) = some u
    · have hval : resolveClassification m false (some u) (some t)
          = Except.ok (some (c :: cs)) := by
        rw [resolveClassification_false, if_neg (fun hne => hne hopt), hc]
      rcases process_result_of_resolve m (some L) (some u) srcContext _ hT hS
        (hproj _ hval) with ⟨r, hp, hcl, _⟩
      exact ⟨r, hp, hcl⟩
    · have hval : resolveClassification m false (some u) (some t)
          = Except.ok (some (c :: cs)) := by
        rw [resolveClassification_false, if_pos hopt]
        cases hoc : classify m (some t)
            (m.nerManager.generateEntityUtteranceFn (some u) (some t)) with
        | none => rw [hc]
        | some l =>
          cases l with
          | nil => rw [hc]
          | cons oc ocs =>
            rw [hc]
            show Except.ok (if oc.value > c.value then some (oc :: ocs)
              else some (c :: cs)) = Except.ok (some (c :: cs))
            rw [if_neg (hno oc ocs hoc)]
      rcases process_result_of_resolve m (some L) (some u) srcContext _ hT hS
        (hproj _ hval) with ⟨r, hp, hcl, _⟩
      exact ⟨r, hp, hcl⟩

/-- Classifier for the C5 counterexample: original top score 0.3, any
other utterance classifies with the uniform score 0.5. -/
def c5xClassifier : NlpClassifier :=
  { NlpClassifier.init "en" with
    getClassifications := fun utterance =>
      if utterance = some "a" then [⟨"x", mkRat 3 10⟩] else [⟨"y", mkRat 1 2⟩] }

/-- Manager for the C5 counterexample. -/
def mC5x : NlpManager :=
  { baseManager with
    languages := ["en"]
    classifiers := [("en", c5xClassifier)]
    nerManager := { NerManager.fresh none with
      generateEntityUtteranceFn := fun _ _ => some "B" } }

/-- C5 counterexample.  The substituted utterance classifies with a
strictly greater top score (0.5 > 0.3), so by the claim the returned
intent label should be the substituted top label `y`; but a uniformly-0.5
substituted classification is degenerate and `process` returns intent
`None` instead. -/
theorem c5_counterexample :
    classify mC5x (some "en") (some "a") = some [⟨"x", mkRat 3 10⟩] ∧
      classify mC5x (some "en") (some "B") = some [⟨"y", mkRat 1 2⟩] ∧
      mkRat 3 10 < mkRat 1 2 ∧
      (process mC5x (some "en") (some "a") none).map ProcessResult.classification
        = Except.ok (some [⟨"y", mkRat 1 2⟩]) ∧
      (process mC5x (some "en") (some "a") none).map ProcessResult.intent
        = Except.ok "None" ∧
      "None" ≠ "y" :=
  ⟨rfl, rfl, by decide, rfl, rfl, by decide⟩

/-- Classifier for the C5 witness: substituted top score 0.7 beats 0.3. -/
def c5wClassifier : NlpClassifier :=
  { NlpClassifier.init "en" with
    getClassifications := fun utterance =>
      if utterance = some "a" then [⟨"x", mkRat 3 10⟩] else [⟨"y", mkRat 7 10⟩] }

/-- Manager for the C5 witness. -/
def mC5w : NlpManager :=
  { baseManager with
    languages := ["en"]
    classifiers := [("en", c5wClassifier)]
    nerManager := { NerManager.fresh none with
      generateEntityUtteranceFn := fun _ _ => some "B" } }

/-- Witness for the amended C5: the substituted classification (top score
0.7 over the original 0.3) is returned together with its top label. -/
theorem c5_entity_reclassification_witness :
    (process mC5w (some "en") (some "a") none).map ProcessResult.classification
        = Except.ok (some [⟨"y", mkRat 7 10⟩]) ∧
      (process mC5w (some "en") (some "a") none).map ProcessResult.intent
        = Except.ok "y" := by
  obtain ⟨r, hp, hcl, hfalse, _⟩ :=
    (c5_entity_reclassification mC5w "en" "a" "en" none rfl (fun _ _ => rfl) rfl
        (List.mem_singleton.2 rfl) ⟨"x", mkRat 3 10⟩ [] rfl).1
      ⟨"y", mkRat 7 10⟩ [] rfl (by decide)
  rw [hp]
  constructor
  · show Except.ok r.classification = Except.ok (some [⟨"y", mkRat 7 10⟩])
    rw [hcl]
  · show Except.ok r.intent = Except.ok "y"
    rw [hfalse (by decide)]

/- ---------------------------------------------------------------------
C3 — full-search arbitration across registered locales.
--------------------------------------------------------------------- -/

/-- C3 (amended).  Under a guessed locale with full search enabled (and an
identity transformer with a no-change slot hook): if B's top score on the
original utterance strictly exceeds the top score of every locale
registered before B, is not strictly exceeded by any locale registered
after B, and no classification in the entity-substituted scan strictly
exceeds it either, then `process` returns B's classification (ties keep
the first-seen result: the running best is replaced only on a strictly
greater top score across both scans). -/
theorem c3_full_search_arbitration (m : NlpManager)
    (srcLocale srcUtterance : Option String) (srcContext : Option Context)
    (utt loc : Option String) (pre post : List String) (B : String)
    (b : Classification) (bs : List Classification)
    (hT : m.processTransformer = id)
    (hS : ∀ x c, m.slotManager.processFn x c = (x, c, false))
    (hrl : resolveProcessLocale m srcLocale srcUtterance = (utt, loc, true))
    (hfs : m.settings.fullSearchWhenGuessed = true)
    (hsplit : m.languages = pre ++ B :: post)
    (hB : classify m (some B) utt = some (b :: bs))
    (hpre : ∀ A ∈ pre, ∀ c cs, classify m (some A) utt = some (c :: cs) →
      c.value < b.value)
    (hpost : ∀ C ∈ post, ∀ c cs, classify m (some C) utt = some (c :: cs) →
      c.value ≤ b.value)
    (hsub : ∀ L ∈ m.languages, ∀ c cs,
      classify m (some L) (m.nerManager.generateEntityUtteranceFn utt (getTruncatedLocale loc))
          = some (c :: cs) →
        c.value ≤ b.value) :
    ∃ r, process m srcLocale srcUtterance srcContext = Except.ok r ∧
      r.classification = some (b :: bs) := by
  have hval := resolveClassification_fullSearch m utt (getTruncatedLocale loc)
    pre post B b bs hfs hsplit hB hpre hpost hsub
  have hres : resolveClassification m (resolveProcessLocale m srcLocale srcUtterance).2.2
      (resolveProcessLocale m srcLocale srcUtterance).1
      (getTruncatedLocale (resolveProcessLocale m srcLocale srcUtterance).2.1)
      = Except.ok (some (b :: bs)) := by
    rw [hrl]
    exact hval
  rcases process_result_of_resolve m srcLocale srcUtterance srcContext _ hT hS hres with
    ⟨r, hp, hcl, _⟩
  exact ⟨r, hp, hcl⟩

/-- Classifier for the C3 counterexample bound to locale `aa`. -/
def c3xaClassifier : NlpClassifier :=
  { NlpClassifier.init "aa" with getClassifications := fun _ => [⟨"a", mkRat 3 10⟩] }

/-- Classifier for the C3 counterexample bound to locale `bb`. -/
def c3xbClassifier : NlpClassifier :=
  { NlpClassifier.init "bb" with getClassifications := fun _ => [⟨"b", mkRat 6 10⟩] }

/-- Classifier for the C3 counterexample bound to locale `cc`. -/
def c3xcClassifier : NlpClassifier :=
  { NlpClassifier.init "cc" with getClassifications := fun _ => [⟨"c", mkRat 9 10⟩] }

/-- Manager for the C3 counterexample: three registered locales scoring
0.3, 0.6, 0.9 on the same utterance. -/
def mC3x : NlpManager :=
  { baseManager with
    languages := ["aa", "bb", "cc"]
    classifiers := [("aa", c3xaClassifier), ("bb", c3xbClassifier), ("cc", c3xcClassifier)] }

/-- C3 counterexample.  Locale `bb`'s top score (0.6) strictly exceeds the
top score of every earlier-registered locale (`aa` scores 0.3), the locale
is guessed and full search is on — yet `process` returns the classification
of the later locale `cc` (0.9), not `bb`'s. -/
theorem c3_counterexample :
    classify mC3x (some "aa") (some "x") = some [⟨"a", mkRat 3 10⟩] ∧
      classify mC3x (some "bb") (some "x") = some [⟨"b", mkRat 6 10⟩] ∧
      mkRat 3 10 < mkRat 6 10 ∧
      (resolveProcessLocale mC3x (some "zz") (some "x")).2.2 = true ∧
      mC3x.settings.fullSearchWhenGuessed = true ∧
      (process mC3x (some "zz") (some "x") none).map ProcessResult.classification
        = Except.ok (some [⟨"c", mkRat 9 10⟩]) ∧
      some [Classification.mk "c" (mkRat 9 10)] ≠ some [Classification.mk "b" (mkRat 6 10)] :=
  ⟨rfl, rfl, by decide, rfl, rfl, rfl, by decide⟩

/-- Classifier for the C3 witness bound to locale `aa`. -/
def c3waClassifier : NlpClassifier :=
  { NlpClassifier.init "aa" with getClassifications := fun _ => [⟨"intentA", mkRat 3 10⟩] }

/-- Classifier for the C3 witness bound to locale `bb`. -/
def c3wbClassifier : NlpClassifier :=
  { NlpClassifier.init "bb" with getClassifications := fun _ => [⟨"intentB", mkRat 6 10⟩] }

/-- Manager for the C3 witness: two registered locales scoring 0.3 and
0.6. -/
def mC3w : NlpManager :=
  { baseManager with
    languages := ["aa", "bb"]
    classifiers := [("aa", c3waClassifier), ("bb", c3wbClassifier)] }

/-- Witness for the amended C3: with two locales scoring 0.3 and 0.6 and
no stronger substituted classification, `process` on a guessed locale
returns the second locale's classification. -/
theorem c3_full_search_arbitration_witness :
    (process mC3w (some "zz") (some "x") none).map ProcessResult.classification
      = Except.ok (some [⟨"intentB", mkRat 6 10⟩]) := by
  obtain ⟨r, hp, hcl⟩ := c3_full_search_arbitration mC3w (some "zz") (some "x") none
    (some "x") (some "aa") ["aa"] [] "bb" ⟨"intentB", mkRat 6 10⟩ []
    rfl (fun _ _ => rfl) rfl rfl rfl rfl
    (by
      intro A hA c cs hc
      rw [List.mem_singleton] at hA
      subst hA
      have h2 : some [Classification.mk "intentA" (mkRat 3 10)] = some (c :: cs) := hc
      injection h2 with h3
      injection h3 with h4 h5
      subst h4
      decide)
    (by intro C hC c cs hc; cases hC)
    (by
      intro L hL c cs hc
      rcases List.mem_cons.1 hL with hL | hL
      · subst hL
        have h2 : some [Classification.mk "intentA" (mkRat 3 10)] = some (c :: cs) := hc
        injection h2 with h3
        injection h3 with h4 h5
        subst h4
        decide
      · rw [List.mem_singleton] at hL
        subst hL
        have h2 : some [Classification.mk "intentB" (mkRat 6 10)] = some (c :: cs) := hc
        injection h2 with h3
        injection h3 with h4 h5
        subst h4
        decide)
  rw [hp]
  show Except.ok r.classification = Except.ok (some [⟨"intentB", mkRat 6 10⟩])
  rw [hcl]

/- ---------------------------------------------------------------------
C9 — graceful degradation of the empty-classification branch.
--------------------------------------------------------------------- -/

/-- Classifier for C9: the original utterance classifies to the empty
result, the substituted one to a non-empty result. -/
def c9Classifier : NlpClassifier :=
  { NlpClassifier.init "en" with
    getClassifications := fun utterance =>
      if utterance = some "hi" then [] else [⟨"greet", mkRat 9 10⟩] }

/-- Manager for the C9 failing input. -/
def mC9 : NlpManager :=
  { baseManager with
    languages := ["en"]
    classifiers := [("en", c9Classifier)]
    nerManager := { NerManager.fresh none with
      generateEntityUtteranceFn := fun _ _ => some "HI" } }

/-- C9.  The claim (and the spec's graceful-degradation contract) says
`process` completes when the original classification is empty while the
substituted variant differs and classifies non-empty; evaluating the code
there shows it instead throws a TypeError, because line 452 reads the top
entry of the empty original classification without a guard. -/
theorem c9_process_throws_on_empty_classification :
    classify mC9 (some "en") (some "hi") = some [] ∧
      mC9.nerManager.generateEntityUtteranceFn (some "hi") (some "en") = some "HI" ∧
      classify mC9 (some "en") (some "HI") = some [⟨"greet", mkRat 9 10⟩] ∧
      process mC9 (some "en") (some "hi") none
        = Except.error "TypeError: cannot read property 0 of undefined" :=
  ⟨rfl, rfl, rfl, rfl⟩

/- ---------------------------------------------------------------------
C10 — implicit locale fallback.
--------------------------------------------------------------------- -/

/-- C10 (amended).  When the supplied locale does not truncate to a
registered locale, the guesser returns no candidate and at least one
locale is registered, `process` resolves to the first registered locale
with the locale marked guessed; under the default full-search policy (and
an identity transformer with a no-change slot hook) the call completes and
the result carries that locale. -/
theorem c10_locale_fallback (m : NlpManager) (srcLocale : Option String) (u : String)
    (srcContext : Option Context) (l : String) (rest : List String)
    (hT : m.processTransformer = id)
    (hS : ∀ x c, m.slotManager.processFn x c = (x, c, false))
    (hlang : m.languages = l :: rest)
    (hnreg : includesOpt m.languages (getTruncatedLocale srcLocale) = false)
    (hguess : guessLanguage m (some u) = none)
    (hfs : m.settings.fullSearchWhenGuessed = true) :
    resolveProcessLocale m srcLocale (some u) = (some u, some l, true) ∧
      ∃ r, process m srcLocale (some u) srcContext = Except.ok r ∧ r.locale = some l := by
  have hrl : resolveProcessLocale m srcLocale (some u) = (some u, some l, true) := by
    unfold resolveProcessLocale
    show (if includesOpt m.languages (getTruncatedLocale srcLocale) = true
        then ((some u : Option String), srcLocale, false)
        else match guessLanguage m (some u) with
          | some g => ((some u : Option String), some g, true)
          | none => ((some u : Option String), m.languages.head?, true))
      = (some u, some l, true)
    rw [hnreg, if_neg Bool.false_ne_true, hguess, hlang]
    rfl
  refine ⟨hrl, ?_⟩
  have hval := resolveClassification_true m (some u) (getTruncatedLocale (some l)) hfs
  have hres : resolveClassification m (resolveProcessLocale m srcLocale (some u)).2.2
      (resolveProcessLocale m srcLocale (some u)).1
      (getTruncatedLocale (resolveProcessLocale m srcLocale (some u)).2.1)
      = Except.ok ((m.languages.foldl
          (bestStep m (m.nerManager.generateEntityUtteranceFn (some u)
            (getTruncatedLocale (some l))))
          (m.languages.foldl (bestStep m (some u)) none)).map Prod.snd) := by
    rw [hrl]
    exact hval
  rcases process_result_of_resolve m srcLocale (some u) srcContext _ hT hS hres with
    ⟨r, hp, _, hloc, _⟩
  rw [hrl] at hloc
  exact ⟨r, hp, hloc⟩

/-- Manager for the C10 witness: one registered locale, a guesser that
never answers. -/
def mC10w : NlpManager := { baseManager with languages := ["en"] }

/-- Witness for the amended C10: an unregistered supplied locale falls
back to the single registered locale `en`. -/
theorem c10_locale_fallback_witness :
    (process mC10w (some "zz") (some "hola") none).map ProcessResult.locale
      = Except.ok (some "en") := by
  obtain ⟨hrl, r, hp, hloc⟩ := c10_locale_fallback mC10w (some "zz") "hola" none "en" []
    rfl (fun _ _ => rfl) rfl rfl rfl rfl
  rw [hp]
  show Except.ok r.locale = Except.ok (some "en")
  rw [hloc]

/-- Classifier for the C10 counterexample: empty classification on the
original utterance, non-empty on the substituted one. -/
def c10xClassifier : NlpClassifier :=
  { NlpClassifier.init "en" with
    getClassifications := fun utterance =>
      if utterance = some "hi" then [] else [⟨"greet", mkRat 9 10⟩] }

/-- Manager for the C10 counterexample: full search disabled. -/
def mC10x : NlpManager :=
  { baseManager with
    settings := { ner := none, fullSearchWhenGuessed := false, useNlg := true }
    languages := ["en"]
    classifiers := [("en", c10xClassifier)]
    nerManager := { NerManager.fresh none with
      generateEntityUtteranceFn := fun _ _ => some "HI" } }

/-- C10 counterexample.  The supplied locale does not truncate to a
registered locale and the guesser returns nothing, so by the claim
`process` must not fail; with full search disabled the fallback locale's
classifier returns an empty classification for the original utterance and
a non-empty one for the substituted variant, and `process` throws. -/
theorem c10_counterexample :
    includesOpt mC10x.languages (getTruncatedLocale (some "zz")) = false ∧
      guessLanguage mC10x (some "hi") = none ∧
      process mC10x (some "zz") (some "hi") none
        = Except.error "TypeError: cannot read property 0 of undefined" :=
  ⟨rfl, rfl, rfl⟩
